import Mathlib

/-
Verification of the rustyyaml safety-filtering and conversion pipeline.

Shallow embedding of the Rust sources:
  src/safe.rs    — deny-list constants, `check_safety`, `quick_safety_check`
  src/types.rs   — `yaml_to_python` (tree → native value conversion)
  src/parser.rs  — `parse_safe`, `parse_unsafe`
  src/batch.rs   — `safe_load_many`, `unsafe_load_many`, `load_directory`,
                   `collect_yaml_files`
  src/error.rs   — `YAMLError`, `From<std::io::Error>`

The YAML grammar itself (serde_yaml's `from_str`) is an external
collaborator; it is modelled as a function parameter
`parse : String → Except YAMLError Value` wherever the pipeline invokes it.
IEEE-754 casts from integers to 64-bit floats are likewise external and are
threaded through as a parameter `cast : Int → F64`; the pipeline never
inspects float payloads, it only moves them.
-/

namespace RustyYaml

/-- Opaque 64-bit IEEE-754 payload: the pipeline only ever transports float
values produced by the external parser, identified by their bit pattern. -/
structure F64 where
  bits : Nat
deriving DecidableEq, Repr

/-- Model of `serde_yaml::Number`: an unsigned 64-bit integer, a negative
signed 64-bit integer, or a 64-bit float (serde_yaml's `N::PosInt(u64)`,
`N::NegInt(i64)`, `N::Float(f64)`). -/
inductive YNumber where
  | posInt (u : Nat)
  | negInt (n : Int)
  | float (f : F64)
deriving DecidableEq, Repr

/-- Model of `serde_yaml::Value`: the parsed YAML tree. `tagged` carries the
tag's display string (the result of `tagged.tag.to_string()` in Rust). -/
inductive Value where
  | null
  | bool (b : Bool)
  | number (n : YNumber)
  | str (s : String)
  | sequence (items : List Value)
  | mapping (pairs : List (Value × Value))
  | tagged (tag : String) (inner : Value)
deriving Repr

/-- Model of the converted host value (`PyObject` as produced by
`yaml_to_python`): None, bool, int, float, str, list, dict. A dict is its
ordered entry list, in insertion order. -/
inductive PyObject where
  | none
  | bool (b : Bool)
  | int (i : Int)
  | float (f : F64)
  | str (s : String)
  | list (items : List PyObject)
  | dict (entries : List (PyObject × PyObject))
deriving Repr

/-- Model of `YAMLError` from src/error.rs. -/
inductive YAMLError where
  | ParseError (line col : Nat) (message : String)
  | UnsafeTag (tag : String)
  | InvalidNumber (value : String)
  | FileNotFound (path : String)
  | DecodingError (message : String)
deriving DecidableEq, Repr

/-- Substring containment on character lists: Rust's `str::contains` for a
string pattern (true iff `needle` occurs contiguously in `hay`; an empty
needle is always contained). -/
def containsSub : List Char → List Char → Bool
  | [], needle => needle.isEmpty
  | c :: t, needle => needle.isPrefixOf (c :: t) || containsSub t needle

/-- Rust `hay.contains(needle)` on strings. -/
def strContains (hay needle : String) : Bool :=
  containsSub hay.data needle.data

/-- The deny-list `UNSAFE_TAGS` from src/safe.rs. -/
def UNSAFE_TAGS : List String :=
  [ "tag:yaml.org,2002:python/object"
  , "tag:yaml.org,2002:python/object/apply"
  , "tag:yaml.org,2002:python/object/new"
  , "tag:yaml.org,2002:python/name"
  , "tag:yaml.org,2002:python/module"
  , "!!python/object"
  , "!!python/object/apply"
  , "!!python/object/new"
  , "!!python/name"
  , "!!python/module"
  , "python/object"
  , "python/object/apply"
  , "python/object/new"
  , "python/name"
  , "python/module" ]

/-- The `dangerous_patterns` array inside `quick_safety_check`. -/
def dangerousPatterns : List String :=
  [ "!!python/object"
  , "!!python/name"
  , "!!python/module"
  , "!python/object"
  , "!python/name"
  , "!python/module"
  , "tag:yaml.org,2002:python" ]

/-- The tag test performed on a `Tagged` node by `check_safety`: does the
tag string contain any deny-list fragment? -/
def tagIsDenied (tag : String) : Bool :=
  UNSAFE_TAGS.any (fun u => strContains tag u)

mutual

/-- Model of `check_safety` (src/safe.rs lines 35-71): recursive deep scan
of the parsed tree. A `Tagged` node whose tag contains a deny-list fragment
is rejected with `UnsafeTag` carrying the node's tag; otherwise the scan
recurses into the tagged value. Sequences scan every element, mappings scan
every key and value, scalars are accepted. -/
def check_safety : Value → Except YAMLError Unit
  | .tagged tag v =>
      if tagIsDenied tag then .error (.UnsafeTag tag)
      else check_safety v
  | .sequence items => checkSafetyList items
  | .mapping pairs => checkSafetyPairs pairs
  | .null => .ok ()
  | .bool _ => .ok ()
  | .number _ => .ok ()
  | .str _ => .ok ()

/-- The `for item in seq` loop of `check_safety` on a sequence, with the
`?` early return. -/
def checkSafetyList : List Value → Except YAMLError Unit
  | [] => .ok ()
  | v :: rest =>
      match check_safety v with
      | .error e => .error e
      | .ok _ => checkSafetyList rest

/-- The `for (k, v) in map` loop of `check_safety` on a mapping, with the
`?` early returns on key and value. -/
def checkSafetyPairs : List (Value × Value) → Except YAMLError Unit
  | [] => .ok ()
  | (k, v) :: rest =>
      match check_safety k with
      | .error e => .error e
      | .ok _ =>
          match check_safety v with
          | .error e => .error e
          | .ok _ => checkSafetyPairs rest

end

/-- Model of `quick_safety_check` (src/safe.rs lines 76-97): substring scan
of the raw, unparsed text; the first contained pattern is reported as the
`UnsafeTag` payload. -/
def quick_safety_check (yamlStr : String) : Except YAMLError Unit :=
  match dangerousPatterns.find? (fun p => strContains yamlStr p) with
  | some p => .error (.UnsafeTag p)
  | Option.none => .ok ()

mutual

/-- Does the tree contain a `Tagged` node whose tag matches the deny
list, at any depth (including inside mapping keys)? -/
def containsDenyTag : Value → Bool
  | .tagged tag v => tagIsDenied tag || containsDenyTag v
  | .sequence items => containsDenyTagList items
  | .mapping pairs => containsDenyTagPairs pairs
  | _ => false

def containsDenyTagList : List Value → Bool
  | [] => false
  | v :: rest => containsDenyTag v || containsDenyTagList rest

def containsDenyTagPairs : List (Value × Value) → Bool
  | [] => false
  | (k, v) :: rest => containsDenyTag k || containsDenyTag v || containsDenyTagPairs rest

end

mutual

/-- Does the tree contain any `Tagged` node at all, at any depth? -/
def containsTagged : Value → Bool
  | .tagged _ _ => true
  | .sequence items => containsTaggedList items
  | .mapping pairs => containsTaggedPairs pairs
  | _ => false

def containsTaggedList : List Value → Bool
  | [] => false
  | v :: rest => containsTagged v || containsTaggedList rest

def containsTaggedPairs : List (Value × Value) → Bool
  | [] => false
  | (k, v) :: rest => containsTagged k || containsTagged v || containsTaggedPairs rest

end

mutual

/-- Structural equality of converted host values, used by the host dict to
detect key collisions on insertion. -/
def pyEq : PyObject → PyObject → Bool
  | .none, .none => true
  | .bool a, .bool b => a == b
  | .int a, .int b => a == b
  | .float a, .float b => a == b
  | .str a, .str b => a == b
  | .list xs, .list ys => pyEqList xs ys
  | .dict xs, .dict ys => pyEqEntries xs ys
  | _, _ => false

def pyEqList : List PyObject → List PyObject → Bool
  | [], [] => true
  | x :: xs, y :: ys => pyEq x y && pyEqList xs ys
  | _, _ => false

def pyEqEntries : List (PyObject × PyObject) → List (PyObject × PyObject) → Bool
  | [], [] => true
  | (k, v) :: xs, (k', v') :: ys => pyEq k k' && pyEq v v' && pyEqEntries xs ys
  | _, _ => false

end

/-- Host dict insertion (`dict.set_item(key, val)`): if an equal key is
already present its value is updated in place, keeping the key's original
position (first-seen order); otherwise the pair is appended at the end.
This is the ordered, last-write-wins associative insert the spec prescribes
for the host container. -/
def dictSetItem : List (PyObject × PyObject) → PyObject → PyObject → List (PyObject × PyObject)
  | [], k, v => [(k, v)]
  | (k', v') :: rest, k, v =>
      if pyEq k' k then (k', v) :: rest
      else (k', v') :: dictSetItem rest k v

/-- Model of `serde_yaml::Number::as_i64`: a non-negative value fits iff it
is at most `i64::MAX`; `NegInt` always fits. -/
def asI64 : YNumber → Option Int
  | .posInt u => if u ≤ 9223372036854775807 then some (Int.ofNat u) else Option.none
  | .negInt n => some n
  | .float _ => Option.none

/-- Model of `serde_yaml::Number::as_u64`: only a `PosInt` fits. -/
def asU64 : YNumber → Option Nat
  | .posInt u => some u
  | .negInt _ => Option.none
  | .float _ => Option.none

/-- Model of `serde_yaml::Number::as_f64`: always succeeds; integers go
through the external IEEE-754 cast `cast`, floats are returned as stored. -/
def asF64 (cast : Int → F64) : YNumber → Option F64
  | .posInt u => some (cast (Int.ofNat u))
  | .negInt n => some (cast n)
  | .float f => some f

/-- Rendering of a number for the `InvalidNumber` diagnostic
(`n.to_string()`); the float branch's text is produced externally by Rust's
f64 formatter and is immaterial here: the branch is proved unreachable. -/
def numberToString : YNumber → String
  | .posInt u => toString u
  | .negInt n => toString n
  | .float _ => "float"

/-- The `Value::Number` arm of `yaml_to_python` (src/types.rs lines 30-44):
try `as_i64`, then `as_u64`, then `as_f64`, else `InvalidNumber`. -/
def numberToPython (cast : Int → F64) (n : YNumber) : Except YAMLError PyObject :=
  match asI64 n with
  | some i => .ok (.int i)
  | Option.none =>
      match asU64 n with
      | some u => .ok (.int (Int.ofNat u))
      | Option.none =>
          match asF64 cast n with
          | some f => .ok (.float f)
          | Option.none => .error (.InvalidNumber (numberToString n))

mutual

/-- Model of `yaml_to_python` (src/types.rs lines 21-83): recursive
conversion of the parsed tree to a host value. Strings are converted
identically whether or not the source interns them (interning is a pure
memory optimization with no semantic difference). `Tagged` nodes always
fail with `UnsafeTag` carrying the node's tag. -/
def yaml_to_python (cast : Int → F64) : Value → Except YAMLError PyObject
  | .null => .ok .none
  | .bool b => .ok (.bool b)
  | .number n => numberToPython cast n
  | .str s => .ok (.str s)
  | .sequence items =>
      match yamlListToPython cast items with
      | .error e => .error e
      | .ok l => .ok (.list l)
  | .mapping pairs =>
      match yamlPairsToPython cast pairs [] with
      | .error e => .error e
      | .ok d => .ok (.dict d)
  | .tagged tag _ => .error (.UnsafeTag tag)

/-- The `for item in seq { list.append(...) }` loop of `yaml_to_python`. -/
def yamlListToPython (cast : Int → F64) : List Value → Except YAMLError (List PyObject)
  | [] => .ok []
  | v :: rest =>
      match yaml_to_python cast v with
      | .error e => .error e
      | .ok o =>
          match yamlListToPython cast rest with
          | .error e => .error e
          | .ok l => .ok (o :: l)

/-- The `for (k, v) in map { dict.set_item(...) }` loop of
`yaml_to_python`, building the dict incrementally in source order. -/
def yamlPairsToPython (cast : Int → F64) :
    List (Value × Value) → List (PyObject × PyObject) →
    Except YAMLError (List (PyObject × PyObject))
  | [], acc => .ok acc
  | (k, v) :: rest, acc =>
      match yaml_to_python cast k with
      | .error e => .error e
      | .ok pk =>
          match yaml_to_python cast v with
          | .error e => .error e
          | .ok pv => yamlPairsToPython cast rest (dictSetItem acc pk pv)

end

/-- Model of `parse_safe` (src/parser.rs lines 29-43): quick raw-text scan,
then parse (external `parse`), then deep tree scan, then conversion. -/
def parse_safe (parse : String → Except YAMLError Value) (cast : Int → F64)
    (yamlStr : String) : Except YAMLError PyObject :=
  match quick_safety_check yamlStr with
  | .error e => .error e
  | .ok _ =>
      match parse yamlStr with
      | .error e => .error e
      | .ok v =>
          match check_safety v with
          | .error e => .error e
          | .ok _ => yaml_to_python cast v

/-- Model of `parse_unsafe` (src/parser.rs lines 52-59): parse, then
convert, with no safety checks of either stage. -/
def parse_unchecked (parse : String → Except YAMLError Value) (cast : Int → F64)
    (yamlStr : String) : Except YAMLError PyObject :=
  match parse yamlStr with
  | .error e => .error e
  | .ok v => yaml_to_python cast v

/-- Phase 1 of `safe_load_many` (src/batch.rs lines 44-58): parse and
deep-scan every item, collecting the trees; any failure aborts the whole
phase with that item's error. The Rust version runs the items concurrently
and collects into `Result<Vec<_>, _>`; the successful result and the
all-or-nothing failure shape are order-independent, so the sequential model
is faithful to them (when several items fail, which error surfaces is
unspecified in Rust; this model surfaces the first). -/
def batchParseFilter (parse : String → Except YAMLError Value) :
    List String → Except YAMLError (List Value)
  | [] => .ok []
  | s :: rest =>
      match parse s with
      | .error e => .error e
      | .ok v =>
          match check_safety v with
          | .error e => .error e
          | .ok _ =>
              match batchParseFilter parse rest with
              | .error e => .error e
              | .ok vs => .ok (v :: vs)

/-- Phase 1 of `unsafe_load_many` (src/batch.rs lines 71-80): parse every
item with no safety scan. -/
def batchParseOnly (parse : String → Except YAMLError Value) :
    List String → Except YAMLError (List Value)
  | [] => .ok []
  | s :: rest =>
      match parse s with
      | .error e => .error e
      | .ok v =>
          match batchParseOnly parse rest with
          | .error e => .error e
          | .ok vs => .ok (v :: vs)

/-- Phase 2 of the batch loaders (src/batch.rs lines 61-65): single-threaded
conversion of the collected trees, in input order. -/
def batchConvert (cast : Int → F64) : List Value → Except YAMLError (List PyObject)
  | [] => .ok []
  | v :: rest =>
      match yaml_to_python cast v with
      | .error e => .error e
      | .ok o =>
          match batchConvert cast rest with
          | .error e => .error e
          | .ok l => .ok (o :: l)

/-- Model of `safe_load_many` (src/batch.rs lines 41-66). -/
def safe_load_many (parse : String → Except YAMLError Value) (cast : Int → F64)
    (yamlStrings : List String) : Except YAMLError (List PyObject) :=
  match batchParseFilter parse yamlStrings with
  | .error e => .error e
  | .ok vs => batchConvert cast vs

/-- Model of `unsafe_load_many` (src/batch.rs lines 70-87). -/
def load_many_unchecked (parse : String → Except YAMLError Value) (cast : Int → F64)
    (yamlStrings : List String) : Except YAMLError (List PyObject) :=
  match batchParseOnly parse yamlStrings with
  | .error e => .error e
  | .ok vs => batchConvert cast vs

/-- Model of a filesystem node reachable from the directory argument: a
regular file with its decoded content (`Option.none` models a byte stream
`fs::read_to_string` cannot decode), or a directory with its named entries
in the enumeration order the OS yields. -/
inductive FSNode where
  | file (content : Option String)
  | dir (entries : List (String × FSNode))
deriving Repr

/-- Paths are modelled as component lists, as in Rust's `PathBuf`;
`dir.join(name)` appends one component and rendering joins with `/`. -/
def renderPath : List String → String
  | [] => ""
  | [p] => p
  | p :: rest => p ++ "/" ++ renderPath rest

/-- The characters after the last `.` of a name, or `Option.none` when the
name holds no dot. -/
def afterLastDot : List Char → Option (List Char)
  | [] => Option.none
  | c :: rest =>
      match afterLastDot rest with
      | some e => some e
      | Option.none => if c = '.' then some rest else Option.none

/-- Model of `Path::extension()` on a file name: the portion after the last
dot; none when the name has no dot, or begins with a dot that is its only
dot (hidden files such as `.bashrc`). -/
def extensionOf (name : String) : Option String :=
  match name.data with
  | [] => Option.none
  | c0 :: rest =>
      match afterLastDot (if c0 = '.' then rest else c0 :: rest) with
      | some e => some (String.mk e)
      | Option.none => Option.none

/-- ASCII lowercasing of one character; the extensions compared against are
ASCII, so this is faithful to Rust's `to_lowercase` for this test. -/
def lowerChar (c : Char) : Char :=
  if 'A' ≤ c ∧ c ≤ 'Z' then Char.ofNat (c.toNat + 32) else c

/-- ASCII lowercasing of a string. -/
def lowerStr (s : String) : String :=
  String.mk (s.data.map lowerChar)

/-- The file test of `collect_yaml_files` (src/batch.rs lines 220-227): a
regular file is collected iff its extension, lowercased, is `yaml` or
`yml`. -/
def isYamlFile (name : String) : Bool :=
  match extensionOf name with
  | some ext => lowerStr ext == "yaml" || lowerStr ext == "yml"
  | Option.none => false

mutual

/-- Model of `collect_yaml_files` (src/batch.rs lines 200-234): walk the
entries in enumeration order; a matching regular file is pushed with its
full path; a subdirectory is descended into iff `recursive`. The collected
pair carries the file's readable content (`Option.none` when the later read
will fail to decode). -/
def collect_yaml_files (recursive : Bool) :
    List String → List (String × FSNode) → List (List String × Option String)
  | _, [] => []
  | pfx, (name, node) :: rest =>
      collectEntry recursive pfx name node ++ collect_yaml_files recursive pfx rest

/-- The per-entry body of the `for entry in entries` loop of
`collect_yaml_files`: the file-extension test for regular files, the
`recursive` descent for directories. -/
def collectEntry (recursive : Bool) (pfx : List String) (name : String) :
    FSNode → List (List String × Option String)
  | .file c => if isYamlFile name then [(pfx ++ [name], c)] else []
  | .dir sub => if recursive then collect_yaml_files recursive (pfx ++ [name]) sub else []

end

/-- The per-file closure of `load_directory`'s parallel phase
(src/batch.rs lines 124-140): read the file (a failed read is wrapped as a
`ParseError` with a `Failed to read ...` message and sentinel position
0:0), parse it, deep-scan it. -/
def loadDirItem (parse : String → Except YAMLError Value)
    (item : List String × Option String) : Except YAMLError (String × Value) :=
  match item.2 with
  | Option.none => .error (.ParseError 0 0 ("Failed to read " ++ renderPath item.1))
  | some content =>
      match parse content with
      | .error e => .error e
      | .ok v =>
          match check_safety v with
          | .error e => .error e
          | .ok _ => .ok (renderPath item.1, v)

/-- Phase 1 of `load_directory`: read + parse + filter every discovered
file, all-or-nothing. -/
def loadDirParseFilter (parse : String → Except YAMLError Value) :
    List (List String × Option String) → Except YAMLError (List (String × Value))
  | [] => .ok []
  | item :: rest =>
      match loadDirItem parse item with
      | .error e => .error e
      | .ok pv =>
          match loadDirParseFilter parse rest with
          | .error e => .error e
          | .ok l => .ok (pv :: l)

/-- Phase 2 of `load_directory` (src/batch.rs lines 145-152): convert each
collected tree, keeping its path. -/
def loadDirConvert (cast : Int → F64) :
    List (String × Value) → Except YAMLError (List (String × PyObject))
  | [] => .ok []
  | (p, v) :: rest =>
      match yaml_to_python cast v with
      | .error e => .error e
      | .ok o =>
          match loadDirConvert cast rest with
          | .error e => .error e
          | .ok l => .ok ((p, o) :: l)

/-- Model of `load_directory` (src/batch.rs lines 106-153). The directory
argument is the path string together with what the filesystem holds there:
`Option.none` when the path does not exist, `some (.file _)` when it names
a regular file — both fail the `is_dir` test and return `FileNotFound`
before any file is read or parsed. -/
def load_directory (parse : String → Except YAMLError Value) (cast : Int → F64)
    (directory : String) (node : Option FSNode) (recursive : Bool) :
    Except YAMLError (List (String × PyObject)) :=
  match node with
  | Option.none => .error (.FileNotFound directory)
  | some (.file _) => .error (.FileNotFound directory)
  | some (.dir entries) =>
      match loadDirParseFilter parse (collect_yaml_files recursive [directory] entries) with
      | .error e => .error e
      | .ok l => loadDirConvert cast l

/-- The `std::io::ErrorKind` values distinguished by the repository's
`From<std::io::Error>` conversion: only `NotFound` is special-cased. -/
inductive IoErrorKind where
  | notFound
  | invalidData
  | permissionDenied
  | otherKind
deriving DecidableEq, Repr

/-- Model of `impl From<std::io::Error> for YAMLError` (src/error.rs lines
96-110): a not-found IO error becomes `FileNotFound { path: "unknown" }`;
every other IO error — including a non-decodable byte stream, which
surfaces as `ErrorKind::InvalidData` — becomes a `ParseError` whose message
wraps the IO error's text. -/
def yamlErrorOfIo (kind : IoErrorKind) (text : String) : YAMLError :=
  if kind = .notFound then .FileNotFound "unknown"
  else .ParseError 0 0 ("IO error: " ++ text)

/-! ### Helper lemmas: the deep scan -/

mutual

theorem check_safety_ok_iff (v : Value) :
    check_safety v = .ok () ↔ containsDenyTag v = false := by
  cases v with
  | tagged tag inner =>
      by_cases h : tagIsDenied tag
      · simp [check_safety, containsDenyTag, h]
      · simp [check_safety, containsDenyTag, h, check_safety_ok_iff inner]
  | sequence items =>
      simpa [check_safety, containsDenyTag] using checkSafetyList_ok_iff items
  | mapping pairs =>
      simpa [check_safety, containsDenyTag] using checkSafetyPairs_ok_iff pairs
  | null => simp [check_safety, containsDenyTag]
  | bool b => simp [check_safety, containsDenyTag]
  | number n => simp [check_safety, containsDenyTag]
  | str s => simp [check_safety, containsDenyTag]

theorem checkSafetyList_ok_iff (l : List Value) :
    checkSafetyList l = .ok () ↔ containsDenyTagList l = false := by
  cases l with
  | nil => simp [checkSafetyList, containsDenyTagList]
  | cons v rest =>
      cases hv : check_safety v with
      | error e =>
          have : containsDenyTag v = true := by
            by_contra hfalse
            have := (check_safety_ok_iff v).2 (Bool.eq_false_iff.2 hfalse)
            simp [this] at hv
          simp [checkSafetyList, containsDenyTagList, hv, this]
      | ok u =>
          cases u
          have hdeny := (check_safety_ok_iff v).1 hv
          simp [checkSafetyList, containsDenyTagList, hv, hdeny,
            checkSafetyList_ok_iff rest]

theorem checkSafetyPairs_ok_iff (l : List (Value × Value)) :
    checkSafetyPairs l = .ok () ↔ containsDenyTagPairs l = false := by
  cases l with
  | nil => simp [checkSafetyPairs, containsDenyTagPairs]
  | cons p rest =>
      obtain ⟨k, v⟩ := p
      cases hk : check_safety k with
      | error e =>
          have : containsDenyTag k = true := by
            by_contra hfalse
            have := (check_safety_ok_iff k).2 (Bool.eq_false_iff.2 hfalse)
            simp [this] at hk
          simp [checkSafetyPairs, containsDenyTagPairs, hk, this]
      | ok u =>
          cases u
          have hdk := (check_safety_ok_iff k).1 hk
          cases hv : check_safety v with
          | error e =>
              have : containsDenyTag v = true := by
                by_contra hfalse
                have := (check_safety_ok_iff v).2 (Bool.eq_false_iff.2 hfalse)
                simp [this] at hv
              simp [checkSafetyPairs, containsDenyTagPairs, hk, hv, hdk, this]
          | ok u' =>
              cases u'
              have hdv := (check_safety_ok_iff v).1 hv
              simp [checkSafetyPairs, containsDenyTagPairs, hk, hv, hdk, hdv,
                checkSafetyPairs_ok_iff rest]

end

mutual

theorem check_safety_error_shape (v : Value) (e : YAMLError)
    (h : check_safety v = .error e) : ∃ t, e = .UnsafeTag t := by
  cases v with
  | tagged tag inner =>
      by_cases hd : tagIsDenied tag
      · simp [check_safety, hd] at h
        exact ⟨tag, h.symm⟩
      · simp [check_safety, hd] at h
        exact check_safety_error_shape inner e h
  | sequence items =>
      simp only [check_safety] at h
      exact checkSafetyList_error_shape items e h
  | mapping pairs =>
      simp only [check_safety] at h
      exact checkSafetyPairs_error_shape pairs e h
  | null => simp [check_safety] at h
  | bool b => simp [check_safety] at h
  | number n => simp [check_safety] at h
  | str s => simp [check_safety] at h

theorem checkSafetyList_error_shape (l : List Value) (e : YAMLError)
    (h : checkSafetyList l = .error e) : ∃ t, e = .UnsafeTag t := by
  cases l with
  | nil => simp [checkSafetyList] at h
  | cons v rest =>
      cases hv : check_safety v with
      | error e' =>
          simp [checkSafetyList, hv] at h
          exact h ▸ check_safety_error_shape v e' hv
      | ok u =>
          cases u
          simp [checkSafetyList, hv] at h
          exact checkSafetyList_error_shape rest e h

theorem checkSafetyPairs_error_shape (l : List (Value × Value)) (e : YAMLError)
    (h : checkSafetyPairs l = .error e) : ∃ t, e = .UnsafeTag t := by
  cases l with
  | nil => simp [checkSafetyPairs] at h
  | cons p rest =>
      obtain ⟨k, v⟩ := p
      cases hk : check_safety k with
      | error e' =>
          simp [checkSafetyPairs, hk] at h
          exact h ▸ check_safety_error_shape k e' hk
      | ok u =>
          cases u
          cases hv : check_safety v with
          | error e' =>
              simp [checkSafetyPairs, hk, hv] at h
              exact h ▸ check_safety_error_shape v e' hv
          | ok u' =>
              cases u'
              simp [checkSafetyPairs, hk, hv] at h
              exact checkSafetyPairs_error_shape rest e h

end

/-- A tree that fails the deep scan fails it with an `UnsafeTag` error. -/
theorem check_safety_deny_error (v : Value) (h : containsDenyTag v = true) :
    ∃ t, check_safety v = .error (.UnsafeTag t) := by
  cases he : check_safety v with
  | error e =>
      obtain ⟨t, ht⟩ := check_safety_error_shape v e he
      exact ⟨t, by rw [ht]⟩
  | ok u =>
      cases u
      have := (check_safety_ok_iff v).1 he
      simp [this] at h

mutual

theorem tagged_of_denyTag (v : Value) (h : containsDenyTag v = true) :
    containsTagged v = true := by
  cases v with
  | tagged tag inner => simp [containsTagged]
  | sequence items =>
      simp only [containsDenyTag] at h
      simp only [containsTagged]
      exact taggedList_of_denyTagList items h
  | mapping pairs =>
      simp only [containsDenyTag] at h
      simp only [containsTagged]
      exact taggedPairs_of_denyTagPairs pairs h
  | null => simp [containsDenyTag] at h
  | bool b => simp [containsDenyTag] at h
  | number n => simp [containsDenyTag] at h
  | str s => simp [containsDenyTag] at h

theorem taggedList_of_denyTagList (l : List Value) (h : containsDenyTagList l = true) :
    containsTaggedList l = true := by
  cases l with
  | nil => simp [containsDenyTagList] at h
  | cons v rest =>
      simp only [containsDenyTagList] at h
      simp only [containsTaggedList, Bool.or_eq_true]
      cases hv : containsDenyTag v with
      | true => exact Or.inl (tagged_of_denyTag v hv)
      | false =>
          simp only [hv, Bool.false_or] at h
          exact Or.inr (taggedList_of_denyTagList rest h)

theorem taggedPairs_of_denyTagPairs (l : List (Value × Value))
    (h : containsDenyTagPairs l = true) : containsTaggedPairs l = true := by
  cases l with
  | nil => simp [containsDenyTagPairs] at h
  | cons p rest =>
      obtain ⟨k, v⟩ := p
      simp only [containsDenyTagPairs] at h
      simp only [containsTaggedPairs, Bool.or_eq_true]
      cases hk : containsDenyTag k with
      | true => exact Or.inl (Or.inl (tagged_of_denyTag k hk))
      | false =>
          simp only [hk, Bool.false_or] at h
          cases hv : containsDenyTag v with
          | true => exact Or.inl (Or.inr (tagged_of_denyTag v hv))
          | false =>
              simp only [hv, Bool.false_or] at h
              exact Or.inr (taggedPairs_of_denyTagPairs rest h)

end

/-- A tag-free tree passes the deep scan. -/
theorem check_safety_ok_of_tagFree (v : Value) (h : containsTagged v = false) :
    check_safety v = .ok () := by
  refine (check_safety_ok_iff v).2 ?_
  cases hb : containsDenyTag v with
  | false => rfl
  | true =>
      have := tagged_of_denyTag v hb
      simp [this] at h

/-! ### Helper lemmas: the converter -/

/-- `as_f64` always succeeds, so a numeric node never fails conversion. -/
theorem numberToPython_ok (cast : Int → F64) (n : YNumber) :
    ∃ o, numberToPython cast n = .ok o := by
  cases n with
  | posInt u =>
      by_cases h : u ≤ 9223372036854775807
      · exact ⟨.int (Int.ofNat u), by simp [numberToPython, asI64, h]⟩
      · exact ⟨.int (Int.ofNat u), by simp [numberToPython, asI64, asU64, h]⟩
  | negInt n => exact ⟨.int n, by simp [numberToPython, asI64]⟩
  | float f => exact ⟨.float f, by simp [numberToPython, asI64, asU64, asF64]⟩

mutual

theorem yaml_ok_of_tagFree (cast : Int → F64) (v : Value)
    (h : containsTagged v = false) : ∃ o, yaml_to_python cast v = .ok o := by
  cases v with
  | null => exact ⟨.none, rfl⟩
  | bool b => exact ⟨.bool b, rfl⟩
  | number n => exact numberToPython_ok cast n
  | str s => exact ⟨.str s, rfl⟩
  | sequence items =>
      simp only [containsTagged] at h
      obtain ⟨os, hos⟩ := yamlList_ok_of_tagFree cast items h
      exact ⟨.list os, by simp [yaml_to_python, hos]⟩
  | mapping pairs =>
      simp only [containsTagged] at h
      obtain ⟨d, hd⟩ := yamlPairs_ok_of_tagFree cast pairs [] h
      exact ⟨.dict d, by simp [yaml_to_python, hd]⟩
  | tagged tag inner => simp [containsTagged] at h

theorem yamlList_ok_of_tagFree (cast : Int → F64) (l : List Value)
    (h : containsTaggedList l = false) :
    ∃ os, yamlListToPython cast l = .ok os := by
  cases l with
  | nil => exact ⟨[], rfl⟩
  | cons v rest =>
      simp only [containsTaggedList, Bool.or_eq_false_iff] at h
      obtain ⟨o, ho⟩ := yaml_ok_of_tagFree cast v h.1
      obtain ⟨os, hos⟩ := yamlList_ok_of_tagFree cast rest h.2
      exact ⟨o :: os, by simp [yamlListToPython, ho, hos]⟩

theorem yamlPairs_ok_of_tagFree (cast : Int → F64) (l : List (Value × Value))
    (acc : List (PyObject × PyObject)) (h : containsTaggedPairs l = false) :
    ∃ d, yamlPairsToPython cast l acc = .ok d := by
  cases l with
  | nil => exact ⟨acc, rfl⟩
  | cons p rest =>
      obtain ⟨k, v⟩ := p
      simp only [containsTaggedPairs, Bool.or_eq_false_iff] at h
      obtain ⟨pk, hpk⟩ := yaml_ok_of_tagFree cast k h.1.1
      obtain ⟨pv, hpv⟩ := yaml_ok_of_tagFree cast v h.1.2
      obtain ⟨d, hd⟩ := yamlPairs_ok_of_tagFree cast rest (dictSetItem acc pk pv) h.2
      exact ⟨d, by simp [yamlPairsToPython, hpk, hpv, hd]⟩

end

mutual

theorem yaml_error_of_tagged (cast : Int → F64) (v : Value)
    (h : containsTagged v = true) :
    ∃ t, yaml_to_python cast v = .error (.UnsafeTag t) := by
  cases v with
  | null => simp [containsTagged] at h
  | bool b => simp [containsTagged] at h
  | number n => simp [containsTagged] at h
  | str s => simp [containsTagged] at h
  | sequence items =>
      simp only [containsTagged] at h
      obtain ⟨t, ht⟩ := yamlList_error_of_tagged cast items h
      exact ⟨t, by simp [yaml_to_python, ht]⟩
  | mapping pairs =>
      simp only [containsTagged] at h
      obtain ⟨t, ht⟩ := yamlPairs_error_of_tagged cast pairs [] h
      exact ⟨t, by simp [yaml_to_python, ht]⟩
  | tagged tag inner => exact ⟨tag, rfl⟩

theorem yamlList_error_of_tagged (cast : Int → F64) (l : List Value)
    (h : containsTaggedList l = true) :
    ∃ t, yamlListToPython cast l = .error (.UnsafeTag t) := by
  cases l with
  | nil => simp [containsTaggedList] at h
  | cons v rest =>
      simp only [containsTaggedList] at h
      cases hv : containsTagged v with
      | true =>
          obtain ⟨t, ht⟩ := yaml_error_of_tagged cast v hv
          exact ⟨t, by simp [yamlListToPython, ht]⟩
      | false =>
          simp only [hv, Bool.false_or] at h
          obtain ⟨o, ho⟩ := yaml_ok_of_tagFree cast v hv
          obtain ⟨t, ht⟩ := yamlList_error_of_tagged cast rest h
          exact ⟨t, by simp [yamlListToPython, ho, ht]⟩

theorem yamlPairs_error_of_tagged (cast : Int → F64) (l : List (Value × Value))
    (acc : List (PyObject × PyObject)) (h : containsTaggedPairs l = true) :
    ∃ t, yamlPairsToPython cast l acc = .error (.UnsafeTag t) := by
  cases l with
  | nil => simp [containsTaggedPairs] at h
  | cons p rest =>
      obtain ⟨k, v⟩ := p
      simp only [containsTaggedPairs] at h
      cases hk : containsTagged k with
      | true =>
          obtain ⟨t, ht⟩ := yaml_error_of_tagged cast k hk
          exact ⟨t, by simp [yamlPairsToPython, ht]⟩
      | false =>
          simp only [hk, Bool.false_or] at h
          obtain ⟨pk, hpk⟩ := yaml_ok_of_tagFree cast k hk
          cases hv : containsTagged v with
          | true =>
              obtain ⟨t, ht⟩ := yaml_error_of_tagged cast v hv
              exact ⟨t, by simp [yamlPairsToPython, hpk, ht]⟩
          | false =>
              simp only [hv, Bool.false_or] at h
              obtain ⟨pv, hpv⟩ := yaml_ok_of_tagFree cast v hv
              obtain ⟨t, ht⟩ := yamlPairs_error_of_tagged cast rest (dictSetItem acc pk pv) h
              exact ⟨t, by simp [yamlPairsToPython, hpk, hpv, ht]⟩

end

/-! ### Helper lemmas: the batch pipeline -/

theorem batchParseFilter_ok_forall₂ (parse : String → Except YAMLError Value) :
    ∀ texts vs, batchParseFilter parse texts = .ok vs →
      List.Forall₂ (fun s v => parse s = .ok v ∧ check_safety v = .ok ()) texts vs := by
  intro texts
  induction texts with
  | nil =>
      intro vs h
      simp only [batchParseFilter] at h
      cases h
      exact List.Forall₂.nil
  | cons s rest ih =>
      intro vs h
      simp only [batchParseFilter] at h
      cases hp : parse s with
      | error e => simp [hp] at h
      | ok v =>
          cases hc : check_safety v with
          | error e => simp [hp, hc] at h
          | ok u =>
              cases u
              cases hrest : batchParseFilter parse rest with
              | error e => simp [hp, hc, hrest] at h
              | ok vs' =>
                  simp [hp, hc, hrest] at h
                  cases h
                  exact List.Forall₂.cons ⟨hp, hc⟩ (ih vs' hrest)

theorem batchParseFilter_ok_exists (parse : String → Except YAMLError Value) :
    ∀ texts, (∀ s ∈ texts, ∃ v, parse s = .ok v ∧ check_safety v = .ok ()) →
      ∃ vs, batchParseFilter parse texts = .ok vs := by
  intro texts
  induction texts with
  | nil => exact fun _ => ⟨[], rfl⟩
  | cons s rest ih =>
      intro h
      obtain ⟨v, hp, hc⟩ := h s (List.mem_cons_self s rest)
      obtain ⟨vs, hvs⟩ := ih (fun s' hs' => h s' (List.mem_cons_of_mem s hs'))
      exact ⟨v :: vs, by simp [batchParseFilter, hp, hc, hvs]⟩

theorem batchParseFilter_error_of_mem (parse : String → Except YAMLError Value) :
    ∀ texts s, s ∈ texts →
      ((∃ e, parse s = .error e) ∨
        (∃ v, parse s = .ok v ∧ ∃ e, check_safety v = .error e)) →
      ∃ e, batchParseFilter parse texts = .error e := by
  intro texts
  induction texts with
  | nil => intro s hs; simp at hs
  | cons hd rest ih =>
      intro s hs hfail
      cases hp : parse hd with
      | error e => exact ⟨e, by simp [batchParseFilter, hp]⟩
      | ok v =>
          cases hc : check_safety v with
          | error e => exact ⟨e, by simp [batchParseFilter, hp, hc]⟩
          | ok u =>
              cases u
              rcases List.mem_cons.1 hs with heq | hmem
              · subst heq
                rcases hfail with ⟨e, he⟩ | ⟨v', hv', e, he⟩
                · rw [hp] at he; cases he
                · rw [hp] at hv'
                  cases hv'
                  rw [hc] at he; cases he
              · obtain ⟨e, he⟩ := ih s hmem hfail
                exact ⟨e, by simp [batchParseFilter, hp, hc, he]⟩

theorem batchConvert_ok_forall₂ (cast : Int → F64) :
    ∀ vs os, batchConvert cast vs = .ok os →
      List.Forall₂ (fun v o => yaml_to_python cast v = .ok o) vs os := by
  intro vs
  induction vs with
  | nil =>
      intro os h
      simp only [batchConvert] at h
      cases h
      exact List.Forall₂.nil
  | cons v rest ih =>
      intro os h
      simp only [batchConvert] at h
      cases hv : yaml_to_python cast v with
      | error e => simp [hv] at h
      | ok o =>
          cases hrest : batchConvert cast rest with
          | error e => simp [hv, hrest] at h
          | ok os' =>
              simp [hv, hrest] at h
              cases h
              exact List.Forall₂.cons hv (ih os' hrest)

theorem batchConvert_ok_exists (cast : Int → F64) :
    ∀ vs, (∀ v ∈ vs, containsTagged v = false) →
      ∃ os, batchConvert cast vs = .ok os := by
  intro vs
  induction vs with
  | nil => exact fun _ => ⟨[], rfl⟩
  | cons v rest ih =>
      intro h
      obtain ⟨o, ho⟩ := yaml_ok_of_tagFree cast v (h v (List.mem_cons_self v rest))
      obtain ⟨os, hos⟩ := ih (fun v' hv' => h v' (List.mem_cons_of_mem v hv'))
      exact ⟨o :: os, by simp [batchConvert, ho, hos]⟩

theorem forall₂_chain {α β γ : Type} {R : α → β → Prop} {S : β → γ → Prop}
    {T : α → γ → Prop} (hT : ∀ a b c, R a b → S b c → T a c) :
    ∀ {l1 : List α} {l2 : List β} {l3 : List γ},
      List.Forall₂ R l1 l2 → List.Forall₂ S l2 l3 → List.Forall₂ T l1 l3 := by
  intro l1 l2 l3 h12 h23
  induction h12 generalizing l3 with
  | nil => cases h23; exact List.Forall₂.nil
  | cons hr _ ih =>
      cases h23 with
      | cons hs h23' => exact List.Forall₂.cons (hT _ _ _ hr hs) (ih h23')

/-! ### Helper lemmas: mapping order -/

/-- Pairwise-distinct converted keys, in insertion order: no later key is
equal (to the host container) to an earlier one. -/
def noDupKeys : List (PyObject × PyObject) → Bool
  | [] => true
  | e :: rest => rest.all (fun e2 => !(pyEq e.1 e2.1)) && noDupKeys rest

/-- Inserting a fresh key appends at the end. -/
theorem dictSetItem_append (k v : PyObject) :
    ∀ d, (∀ e ∈ d, pyEq e.1 k = false) → dictSetItem d k v = d ++ [(k, v)] := by
  intro d
  induction d with
  | nil => intro _; rfl
  | cons e rest ih =>
      intro h
      obtain ⟨k', v'⟩ := e
      have hk' : pyEq k' k = false := h (k', v') (List.mem_cons_self _ _)
      simp [dictSetItem, hk', ih (fun e' he' => h e' (List.mem_cons_of_mem _ he'))]

/-- The per-pair conversion relation: both components of a source pair
convert to the components of a host pair. -/
def PairConv (cast : Int → F64) (yp : Value × Value) (pp : PyObject × PyObject) : Prop :=
  yaml_to_python cast yp.1 = .ok pp.1 ∧ yaml_to_python cast yp.2 = .ok pp.2

theorem yamlPairsToPython_ordered (cast : Int → F64) :
    ∀ {pairs : List (Value × Value)} {ppairs : List (PyObject × PyObject)},
      List.Forall₂ (PairConv cast) pairs ppairs →
      noDupKeys ppairs = true →
      ∀ acc, (∀ a ∈ acc, ∀ b ∈ ppairs, pyEq a.1 b.1 = false) →
      yamlPairsToPython cast pairs acc = .ok (acc ++ ppairs) := by
  intro pairs ppairs hconv
  induction hconv with
  | nil => intro _ acc _; simp [yamlPairsToPython]
  | @cons yp pp l₁ l₂ hr hrest ih =>
      intro hnodup acc hacc
      obtain ⟨yk, yv⟩ := yp
      obtain ⟨pk, pv⟩ := pp
      obtain ⟨hk, hv⟩ := hr
      simp only [noDupKeys, Bool.and_eq_true, List.all_eq_true] at hnodup
      have hfresh : ∀ e ∈ acc, pyEq e.1 pk = false :=
        fun e he => hacc e he (pk, pv) (List.mem_cons_self _ _)
      have step : yamlPairsToPython cast ((yk, yv) :: l₁) acc
          = yamlPairsToPython cast l₁ (dictSetItem acc pk pv) := by
        simp [yamlPairsToPython, hk, hv]
      rw [step, dictSetItem_append pk pv acc hfresh,
        ih hnodup.2 (acc ++ [(pk, pv)]) ?_]
      · simp
      · intro a ha b hb
        rcases List.mem_append.1 ha with ha' | ha'
        · exact hacc a ha' b (List.mem_cons_of_mem _ hb)
        · simp only [List.mem_singleton] at ha'
          subst ha'
          simpa using hnodup.1 b hb

/-! ### Helper lemmas: the directory walker -/

mutual

/-- Specification-side reachability: a YAML document file sits at relative
path `rel` (with content `c`) below a list of directory entries, where a
directory entry may be entered only when `recursive` is set. -/
inductive YamlAt (recursive : Bool) :
    List (String × FSNode) → List String → Option String → Prop where
  | head {name node rest rel c} :
      EntryAt recursive name node rel c →
      YamlAt recursive ((name, node) :: rest) rel c
  | tail {e rest rel c} :
      YamlAt recursive rest rel c →
      YamlAt recursive (e :: rest) rel c

/-- Reachability through a single named entry: a regular file is a hit iff
its name's extension is `yaml`/`yml` (case-insensitive); a directory may be
entered only when `recursive` is set. -/
inductive EntryAt (recursive : Bool) :
    String → FSNode → List String → Option String → Prop where
  | file {name c} :
      isYamlFile name = true →
      EntryAt recursive name (.file c) [name] c
  | dir {name sub rel c} :
      recursive = true →
      YamlAt recursive sub rel c →
      EntryAt recursive name (.dir sub) (name :: rel) c

end

mutual

theorem collect_mem_iff (recursive : Bool) :
    ∀ (pfx : List String) (entries : List (String × FSNode))
      (p : List String) (c : Option String),
      (p, c) ∈ collect_yaml_files recursive pfx entries ↔
        ∃ rel, p = pfx ++ rel ∧ YamlAt recursive entries rel c := by
  intro pfx entries p c
  cases entries with
  | nil =>
      simp only [collect_yaml_files, List.not_mem_nil, false_iff]
      rintro ⟨rel, _, hat⟩
      cases hat
  | cons e rest =>
      obtain ⟨name, node⟩ := e
      simp only [collect_yaml_files, List.mem_append]
      constructor
      · rintro (hmem | hmem)
        · obtain ⟨rel, hp, hat⟩ := (collectEntry_mem_iff recursive pfx name node p c).1 hmem
          exact ⟨rel, hp, YamlAt.head hat⟩
        · obtain ⟨rel, hp, hat⟩ := (collect_mem_iff recursive pfx rest p c).1 hmem
          exact ⟨rel, hp, YamlAt.tail hat⟩
      · rintro ⟨rel, hp, hat⟩
        cases hat with
        | head hentry =>
            exact Or.inl ((collectEntry_mem_iff recursive pfx name node p c).2
              ⟨rel, hp, hentry⟩)
        | tail htail =>
            exact Or.inr ((collect_mem_iff recursive pfx rest p c).2 ⟨rel, hp, htail⟩)

theorem collectEntry_mem_iff (recursive : Bool) :
    ∀ (pfx : List String) (name : String) (node : FSNode)
      (p : List String) (c : Option String),
      (p, c) ∈ collectEntry recursive pfx name node ↔
        ∃ rel, p = pfx ++ rel ∧ EntryAt recursive name node rel c := by
  intro pfx name node p c
  cases node with
  | file cc =>
      simp only [collectEntry]
      cases hy : isYamlFile name with
      | true =>
          simp only [hy, if_true, List.mem_singleton, Prod.mk.injEq]
          constructor
          · rintro ⟨hp, hc⟩
            exact ⟨[name], hp, hc ▸ EntryAt.file hy⟩
          · rintro ⟨rel, hp, hat⟩
            cases hat
            exact ⟨hp, rfl⟩
      | false =>
          simp only [hy, Bool.false_eq_true, if_false, List.not_mem_nil, false_iff]
          rintro ⟨rel, hp, hat⟩
          cases hat with
          | file hyaml => rw [hy] at hyaml; cases hyaml
  | dir sub =>
      simp only [collectEntry]
      by_cases hr : recursive
      · subst hr
        simp only [if_true]
        constructor
        · intro hmem
          obtain ⟨rel, hp, hat⟩ := (collect_mem_iff true (pfx ++ [name]) sub p c).1 hmem
          exact ⟨name :: rel, by simpa using hp, EntryAt.dir rfl hat⟩
        · rintro ⟨rel, hp, hat⟩
          cases hat with
          | dir hrec hsub =>
              exact (collect_mem_iff true (pfx ++ [name]) sub p c).2
                ⟨_, by simpa using hp, hsub⟩
      · have hr' : recursive = false := Bool.eq_false_iff.2 hr
        subst hr'
        simp only [Bool.false_eq_true, if_false, List.not_mem_nil, false_iff]
        rintro ⟨rel, hp, hat⟩
        cases hat with
        | dir hrec hsub => cases hrec

end

theorem checkSafetyList_ok_iff_forall :
    ∀ l : List Value, checkSafetyList l = .ok () ↔
      ∀ x ∈ l, check_safety x = .ok () := by
  intro l
  induction l with
  | nil => simp [checkSafetyList]
  | cons v rest ih =>
      cases hv : check_safety v with
      | error e =>
          simp only [checkSafetyList, hv]
          constructor
          · intro h; cases h
          · intro h
            have := h v (List.mem_cons_self v rest)
            rw [hv] at this; cases this
      | ok u =>
          cases u
          simp only [checkSafetyList, hv]
          rw [ih]
          constructor
          · intro h x hx
            rcases List.mem_cons.1 hx with heq | hmem
            · subst heq; exact hv
            · exact h x hmem
          · intro h x hx
            exact h x (List.mem_cons_of_mem v hx)

theorem checkSafetyPairs_ok_iff_forall :
    ∀ l : List (Value × Value), checkSafetyPairs l = .ok () ↔
      ∀ p ∈ l, check_safety p.1 = .ok () ∧ check_safety p.2 = .ok () := by
  intro l
  induction l with
  | nil => simp [checkSafetyPairs]
  | cons pr rest ih =>
      obtain ⟨k, v⟩ := pr
      cases hk : check_safety k with
      | error e =>
          simp only [checkSafetyPairs, hk]
          constructor
          · intro h; cases h
          · intro h
            have := (h (k, v) (List.mem_cons_self _ _)).1
            rw [hk] at this; cases this
      | ok u =>
          cases u
          cases hv : check_safety v with
          | error e =>
              simp only [checkSafetyPairs, hk, hv]
              constructor
              · intro h; cases h
              · intro h
                have := (h (k, v) (List.mem_cons_self _ _)).2
                rw [hv] at this; cases this
          | ok u' =>
              cases u'
              simp only [checkSafetyPairs, hk, hv]
              rw [ih]
              constructor
              · intro h p hp
                rcases List.mem_cons.1 hp with heq | hmem
                · subst heq; exact ⟨hk, hv⟩
                · exact h p hmem
              · intro h p hp
                exact h p (List.mem_cons_of_mem _ hp)

/-! ### Concrete instances for closed evaluations -/

/-- A concrete IEEE-cast instance for closed statements; the pipeline never
inspects the float produced, so any function works here. -/
def castW : Int → F64 := fun i => ⟨i.natAbs⟩

/-- External-parser instance returning a deny-listed tagged document. -/
def parseDenyDoc : String → Except YAMLError Value :=
  fun _ => .ok (.tagged "!!python/object" .null)

/-- External-parser instance returning a benign (non-deny-listed) tagged
document, as serde_yaml produces for `!foo 1`-style input. -/
def parseBenignTag : String → Except YAMLError Value :=
  fun _ => .ok (.tagged "!foo" .null)

/-- The tag-free tree of the document `a: see !!python/object`, whose raw
text contains a deny-list fragment only inside plain scalar content. -/
def vScalarFragment : Value :=
  .mapping [(.str "a", .str "see !!python/object")]

/-- External-parser instance for that document. -/
def parseScalarFragment : String → Except YAMLError Value :=
  fun _ => .ok vScalarFragment

/-- The raw text of that document. -/
def sScalarFragment : String := "a: see !!python/object"

/-- External-parser instance returning a plain scalar document. -/
def parsePlain : String → Except YAMLError Value :=
  fun _ => .ok (.str "plain-value")

/-- External-parser instance that always fails to parse. -/
def parseFailing : String → Except YAMLError Value :=
  fun _ => .error (.ParseError 3 7 "mapping values are not allowed")

/-- Every failure of the quick raw-text scan is an `UnsafeTag`. -/
theorem quick_error_shape (s : String) (e : YAMLError)
    (h : quick_safety_check s = .error e) : ∃ p, e = .UnsafeTag p := by
  cases hf : dangerousPatterns.find? (fun p => strContains s p) with
  | none => simp [quick_safety_check, hf] at h
  | some p =>
      simp [quick_safety_check, hf] at h
      exact ⟨p, h.symm⟩

/-! ### The claims -/

/-- C1 (counterexample): the claim asserts that a document whose tree holds
a deny-listed tag loads successfully in Unsafe mode. On the code, the
Unsafe entry point still converts through `yaml_to_python`, which rejects
every `Tagged` node: for the document parsing to
`Tagged "!!python/object" Null`, the Unsafe load returns `UnsafeTag`, not a
NativeValue. -/
theorem c1_counterexample :
    parse_unchecked parseDenyDoc castW "doc"
      = .error (.UnsafeTag "!!python/object") := rfl

/-- C1 (amended): for every document whose parsed tree contains a
deny-listed tag at any depth, Safe-mode loading fails with `UnsafeTag`, and
Unsafe-mode loading also fails with `UnsafeTag` (at conversion time) rather
than succeeding. -/
theorem c1_deny_tag_both_modes_fail
    (parse : String → Except YAMLError Value) (cast : Int → F64)
    (s : String) (v : Value)
    (hp : parse s = .ok v) (hd : containsDenyTag v = true) :
    (∃ t, parse_safe parse cast s = .error (.UnsafeTag t)) ∧
    (∃ t, parse_unchecked parse cast s = .error (.UnsafeTag t)) := by
  constructor
  · cases hq : quick_safety_check s with
    | error e =>
        obtain ⟨p, hpat⟩ := quick_error_shape s e hq
        exact ⟨p, by simp [parse_safe, hq, hpat]⟩
    | ok u =>
        cases u
        obtain ⟨t, ht⟩ := check_safety_deny_error v hd
        exact ⟨t, by simp [parse_safe, hq, hp, ht]⟩
  · obtain ⟨t, ht⟩ := yaml_error_of_tagged cast v (tagged_of_denyTag v hd)
    exact ⟨t, by simp [parse_unchecked, hp, ht]⟩

/-- C1 (witness): the amended theorem applied to the concrete document
whose tree is `Tagged "!!python/object" Null`. -/
theorem c1_witness :
    (∃ t, parse_safe parseDenyDoc castW "doc" = .error (.UnsafeTag t)) ∧
    (∃ t, parse_unchecked parseDenyDoc castW "doc" = .error (.UnsafeTag t)) :=
  c1_deny_tag_both_modes_fail parseDenyDoc castW "doc"
    (.tagged "!!python/object" .null) rfl (by decide)

/-- C2: the deep scan's behaviour, case by case: a Tagged node whose tag
contains a deny-list fragment is rejected with `UnsafeTag` carrying exactly
that tag; a Tagged node whose tag matches no fragment is scanned by
recursing into its inner value (so scanning stays exhaustive past a
false-negative tag test); a Sequence is safe iff every element is; a
Mapping is safe iff every key and every value is; every scalar is
accepted. -/
theorem c2_deep_scan_spec :
    (∀ t v, (∃ u ∈ UNSAFE_TAGS, strContains t u = true) →
      check_safety (.tagged t v) = .error (.UnsafeTag t)) ∧
    (∀ t v, (∀ u ∈ UNSAFE_TAGS, strContains t u = false) →
      check_safety (.tagged t v) = check_safety v) ∧
    (∀ items, check_safety (.sequence items) = .ok () ↔
      ∀ x ∈ items, check_safety x = .ok ()) ∧
    (∀ pairs, check_safety (.mapping pairs) = .ok () ↔
      ∀ p ∈ pairs, check_safety p.1 = .ok () ∧ check_safety p.2 = .ok ()) ∧
    (check_safety .null = .ok () ∧ (∀ b, check_safety (.bool b) = .ok ()) ∧
      (∀ n, check_safety (.number n) = .ok ()) ∧
      (∀ s, check_safety (.str s) = .ok ())) := by
  refine ⟨?_, ?_, ?_, ?_, rfl, fun _ => rfl, fun _ => rfl, fun _ => rfl⟩
  · intro t v hu
    have hd : tagIsDenied t = true := by
      rcases hu with ⟨u, hmem, hcont⟩
      exact List.any_eq_true.2 ⟨u, hmem, hcont⟩
    simp [check_safety, hd]
  · intro t v hu
    have hd : tagIsDenied t = false := by
      cases hb : tagIsDenied t with
      | false => rfl
      | true =>
          obtain ⟨u, hmem, hcont⟩ := List.any_eq_true.1 hb
          rw [hu u hmem] at hcont
          cases hcont
    simp [check_safety, hd]
  · exact checkSafetyList_ok_iff_forall
  · exact checkSafetyPairs_ok_iff_forall

/-- C2 (witness): the deep-scan theorem applied to concrete nodes: a
deny-listed tag is rejected with exactly that tag, a benign tag defers to
its inner value, and a singleton sequence's scan matches its element's. -/
theorem c2_witness :
    check_safety (.tagged "!!python/name" .null)
      = .error (.UnsafeTag "!!python/name") ∧
    check_safety (.tagged "!custom" (.bool true)) = check_safety (.bool true) ∧
    (check_safety (.sequence [.null]) = .ok () ↔
      ∀ x ∈ [Value.null], check_safety x = .ok ()) :=
  ⟨c2_deep_scan_spec.1 "!!python/name" .null
      ⟨"!!python/name", by decide, by decide⟩,
    c2_deep_scan_spec.2.1 "!custom" (.bool true) (by decide),
    c2_deep_scan_spec.2.2.1 [.null]⟩

theorem forall₂_mono_mem {α β : Type} {R Q : α → β → Prop} :
    ∀ {l1 : List α} {l2 : List β}, List.Forall₂ R l1 l2 →
      (∀ a b, a ∈ l1 → R a b → Q a b) → List.Forall₂ Q l1 l2 := by
  intro l1 l2 h
  induction h with
  | nil => exact fun _ => List.Forall₂.nil
  | @cons a b t1 t2 hr _ ih =>
      intro hq
      exact List.Forall₂.cons (hq a b (List.mem_cons_self a t1) hr)
        (ih fun a' b' ha' => hq a' b' (List.mem_cons_of_mem a ha'))

theorem forall₂_right_mem {α β : Type} {R : α → β → Prop} :
    ∀ {l1 : List α} {l2 : List β}, List.Forall₂ R l1 l2 →
      ∀ b ∈ l2, ∃ a ∈ l1, R a b := by
  intro l1 l2 h
  induction h with
  | nil => intro b hb; simp at hb
  | @cons a b t1 t2 hr _ ih =>
      intro b' hb'
      rcases List.mem_cons.1 hb' with heq | hmem
      · exact ⟨a, List.mem_cons_self a t1, heq ▸ hr⟩
      · obtain ⟨a', ha', hr'⟩ := ih b' hmem
        exact ⟨a', List.mem_cons_of_mem a ha', hr'⟩

/-- C3 (counterexample): the claim asserts that whenever every item parses
and passes the safety filter, the batch call yields an aligned result list.
A benignly tagged document (`!foo`) parses and passes `check_safety` (its
tag contains no deny-list fragment), yet `safe_load_many` fails because
conversion rejects every Tagged node — so the promised list is not
produced. -/
theorem c3_counterexample :
    (parseBenignTag "x" = .ok (.tagged "!foo" .null) ∧
      check_safety (.tagged "!foo" .null) = .ok ()) ∧
    safe_load_many parseBenignTag castW ["x"] = .error (.UnsafeTag "!foo") :=
  ⟨⟨rfl, by rfl⟩, by rfl⟩

/-- C3 (amended): if every item parses, passes the filter, and is tag-free
(so its conversion also succeeds), the batch call returns an ordered list
aligned index-for-index with the input; if any item fails to parse or fails
the filter, the whole call returns a single error and never a partial
list. -/
theorem c3_batch_all_or_nothing
    (parse : String → Except YAMLError Value) (cast : Int → F64)
    (texts : List String) :
    ((∀ s ∈ texts, ∃ v, parse s = .ok v ∧ check_safety v = .ok () ∧
        containsTagged v = false) →
      ∃ l, safe_load_many parse cast texts = .ok l ∧
        List.Forall₂ (fun s o => ∃ v, parse s = .ok v ∧
          yaml_to_python cast v = .ok o) texts l) ∧
    ((∃ s ∈ texts, (∃ e, parse s = .error e) ∨
        (∃ v, parse s = .ok v ∧ ∃ e, check_safety v = .error e)) →
      ∃ e, safe_load_many parse cast texts = .error e) := by
  constructor
  · intro h
    obtain ⟨vs, hvs⟩ := batchParseFilter_ok_exists parse texts
      (fun s hs => by
        obtain ⟨v, hp, hc, _⟩ := h s hs
        exact ⟨v, hp, hc⟩)
    have hf2 := batchParseFilter_ok_forall₂ parse texts vs hvs
    have hf2' : List.Forall₂ (fun s v => parse s = .ok v ∧
        containsTagged v = false) texts vs := by
      refine forall₂_mono_mem hf2 ?_
      intro s v hs hr
      obtain ⟨v', hp', _, ht'⟩ := h s hs
      rw [hr.1] at hp'
      cases hp'
      exact ⟨hr.1, ht'⟩
    have htf : ∀ v ∈ vs, containsTagged v = false := by
      intro v hv
      obtain ⟨s, _, _, ht⟩ := forall₂_right_mem hf2' v hv
      exact ht
    obtain ⟨os, hos⟩ := batchConvert_ok_exists cast vs htf
    have hc2 := batchConvert_ok_forall₂ cast vs os hos
    refine ⟨os, by simp [safe_load_many, hvs, hos], ?_⟩
    exact forall₂_chain
      (fun s v o hr hs => ⟨v, hr.1, hs⟩) hf2' hc2
  · intro h
    obtain ⟨s, hs, hfail⟩ := h
    obtain ⟨e, he⟩ := batchParseFilter_error_of_mem parse texts s hs hfail
    exact ⟨e, by simp [safe_load_many, he]⟩

/-- C3 (witness): the amended theorem applied to a one-item batch that
succeeds (a plain scalar) and a one-item batch whose document fails to
parse. -/
theorem c3_witness :
    (∃ l, safe_load_many parsePlain castW ["k"] = .ok l ∧
      List.Forall₂ (fun s o => ∃ v, parsePlain s = .ok v ∧
        yaml_to_python castW v = .ok o) ["k"] l) ∧
    (∃ e, safe_load_many parseFailing castW ["b"] = .error e) :=
  ⟨(c3_batch_all_or_nothing parsePlain castW ["k"]).1
      (fun _ _ => ⟨.str "plain-value", rfl, rfl, rfl⟩),
    (c3_batch_all_or_nothing parseFailing castW ["b"]).2
      ⟨"b", List.mem_cons_self _ _,
        Or.inl ⟨.ParseError 3 7 "mapping values are not allowed", rfl⟩⟩⟩

/-- C4: a Tagged node reaching the converter always fails with `UnsafeTag`
carrying the node's tag, for every cast instance, tag and inner value — in
both modes, since both call the same converter; it is never silently
dropped or realized. -/
theorem c4_converter_rejects_tagged (cast : Int → F64) (tag : String) (v : Value) :
    yaml_to_python cast (.tagged tag v) = .error (.UnsafeTag tag) := rfl

/-- C5 (counterexample): the claim asserts Safe and Unsafe agree on every
document whose parsed tree is tag-free. The document
`a: see !!python/object` has a tag-free tree (the fragment sits inside a
plain scalar), yet Safe mode rejects it in the raw-text quick scan while
Unsafe mode converts it successfully — the two modes disagree. -/
theorem c5_counterexample :
    containsTagged vScalarFragment = false ∧
    parse_safe parseScalarFragment castW sScalarFragment
      = .error (.UnsafeTag "!!python/object") ∧
    parse_unchecked parseScalarFragment castW sScalarFragment
      = .ok (.dict [(.str "a", .str "see !!python/object")]) :=
  ⟨by decide, by rfl, by rfl⟩

/-- C5 (amended): for every document whose parsed tree is tag-free AND
whose raw text passes the quick pre-scan (contains no quick-scan pattern),
Safe-mode and Unsafe-mode loading produce structurally equal NativeValues,
and Safe mode succeeds. -/
theorem c5_tagfree_modes_agree
    (parse : String → Except YAMLError Value) (cast : Int → F64)
    (s : String) (v : Value)
    (hp : parse s = .ok v) (ht : containsTagged v = false)
    (hq : quick_safety_check s = .ok ()) :
    parse_safe parse cast s = parse_unchecked parse cast s ∧
    ∃ o, parse_safe parse cast s = .ok o := by
  have hc : check_safety v = .ok () := check_safety_ok_of_tagFree v ht
  obtain ⟨o, ho⟩ := yaml_ok_of_tagFree cast v ht
  constructor
  · simp [parse_safe, parse_unchecked, hq, hp, hc]
  · exact ⟨o, by simp [parse_safe, hq, hp, hc, ho]⟩

/-- C5 (witness): the amended theorem applied to a plain scalar document
whose raw text contains no quick-scan pattern. -/
theorem c5_witness :
    parse_safe parsePlain castW "k" = parse_unchecked parsePlain castW "k" ∧
    ∃ o, parse_safe parsePlain castW "k" = .ok o :=
  c5_tagfree_modes_agree parsePlain castW "k" (.str "plain-value")
    rfl rfl (by rfl)

/-- C6: numeric conversion tries signed 64-bit first and is exact whenever
the value fits (`9223372036854775807`, i64::MAX, included); a non-negative
value beyond i64::MAX but within u64 range converts exactly through the
unsigned path; a float node (which is how the external parser represents
`99999999999999999999999`, a literal beyond u64::MAX) converts to that
64-bit float; and conversion of a numeric node never returns an error. -/
theorem c6_numeric_conversion (cast : Int → F64) :
    (∀ u : Nat, u ≤ 9223372036854775807 →
      numberToPython cast (.posInt u) = .ok (.int (Int.ofNat u))) ∧
    (∀ u : Nat, 9223372036854775807 < u → u ≤ 18446744073709551615 →
      numberToPython cast (.posInt u) = .ok (.int (Int.ofNat u))) ∧
    (∀ i : Int, numberToPython cast (.negInt i) = .ok (.int i)) ∧
    (∀ f : F64, numberToPython cast (.float f) = .ok (.float f)) ∧
    (∀ n : YNumber, ∃ o, numberToPython cast n = .ok o) ∧
    numberToPython cast (.posInt 9223372036854775807)
      = .ok (.int 9223372036854775807) := by
  refine ⟨?_, ?_, ?_, ?_, numberToPython_ok cast, ?_⟩
  · intro u hu
    simp [numberToPython, asI64, hu]
  · intro u hu _
    simp [numberToPython, asI64, asU64, Nat.not_le.2 hu]
  · intro i
    simp [numberToPython, asI64]
  · intro f
    simp [numberToPython, asI64, asU64, asF64]
  · simp [numberToPython, asI64]

/-- C6 (witness): the numeric theorem applied at i64::MAX, at a value above
i64::MAX but within u64 range, at a negative value, and at a float node. -/
theorem c6_witness :
    numberToPython castW (.posInt 9223372036854775807)
      = .ok (.int 9223372036854775807) ∧
    numberToPython castW (.posInt 18446744073709551615)
      = .ok (.int 18446744073709551615) ∧
    numberToPython castW (.negInt (-17)) = .ok (.int (-17)) ∧
    numberToPython castW (.float ⟨4701758010356350445⟩)
      = .ok (.float ⟨4701758010356350445⟩) :=
  ⟨(c6_numeric_conversion castW).1 9223372036854775807 (by decide),
    (c6_numeric_conversion castW).2.1 18446744073709551615 (by decide) (by decide),
    (c6_numeric_conversion castW).2.2.1 (-17),
    (c6_numeric_conversion castW).2.2.2.1 ⟨4701758010356350445⟩⟩

/-- C7: converting a Mapping whose pairs convert componentwise and whose
converted keys are pairwise distinct yields the dict holding exactly those
pairs in first-seen source order, never re-sorted. -/
theorem c7_mapping_preserves_order (cast : Int → F64)
    (pairs : List (Value × Value)) (ppairs : List (PyObject × PyObject))
    (hconv : List.Forall₂ (PairConv cast) pairs ppairs)
    (hnodup : noDupKeys ppairs = true) :
    yaml_to_python cast (.mapping pairs) = .ok (.dict ppairs) := by
  have h := yamlPairsToPython_ordered cast hconv hnodup []
    (fun a ha => by simp at ha)
  simp [yaml_to_python, h]

/-- C7 (witness): the ordering theorem applied to the mapping with keys `b`
then `a`, yielding the ordered pairs [(b,2),(a,1)]. -/
theorem c7_witness :
    yaml_to_python castW
        (.mapping [(.str "b", .number (.posInt 2)), (.str "a", .number (.posInt 1))])
      = .ok (.dict [(.str "b", .int 2), (.str "a", .int 1)]) :=
  c7_mapping_preserves_order castW _ _
    (List.Forall₂.cons ⟨rfl, by rfl⟩
      (List.Forall₂.cons ⟨rfl, by rfl⟩ List.Forall₂.nil))
    (by rfl)

/-- C8: the directory loader fails with `FileNotFound` when the path is
missing or names a regular file, before any parsing (the result does not
depend on the parse function); the walker collects exactly the regular
files whose extension is `yaml`/`yml` case-insensitively, descending into a
subdirectory precisely when `recursive` is set (the `YamlAt` reachability
characterization); and an empty directory yields an empty list as success,
not an error. -/
theorem c8_directory_loader
    (parse : String → Except YAMLError Value) (cast : Int → F64)
    (directory : String) (recursive : Bool) :
    load_directory parse cast directory Option.none recursive
      = .error (.FileNotFound directory) ∧
    (∀ content, load_directory parse cast directory (some (.file content)) recursive
      = .error (.FileNotFound directory)) ∧
    (∀ entries p c, (p, c) ∈ collect_yaml_files recursive [directory] entries ↔
      ∃ rel, p = [directory] ++ rel ∧ YamlAt recursive entries rel c) ∧
    load_directory parse cast directory (some (.dir [])) recursive = .ok [] :=
  ⟨rfl, fun _ => rfl,
    fun entries p c => collect_mem_iff recursive [directory] entries p c, rfl⟩

/-- C8 (witness): the directory theorem applied concretely: a missing path
fails with `FileNotFound`; a two-entry directory's walk collects its
`.yaml` file (via the characterization's right-to-left direction); the
empty directory succeeds with the empty list. -/
theorem c8_witness :
    load_directory parsePlain castW "d" Option.none false
      = .error (.FileNotFound "d") ∧
    (["d", "a.yaml"], some "k") ∈ collect_yaml_files false ["d"]
      [("a.yaml", .file (some "k")), ("n.txt", .file (some "z"))] ∧
    load_directory parsePlain castW "d" (some (.dir [])) false = .ok [] :=
  ⟨(c8_directory_loader parsePlain castW "d" false).1,
    ((c8_directory_loader parsePlain castW "d" false).2.2.1
        [("a.yaml", .file (some "k")), ("n.txt", .file (some "z"))]
        ["d", "a.yaml"] (some "k")).2
      ⟨["a.yaml"], rfl, YamlAt.head (EntryAt.file (by rfl))⟩,
    (c8_directory_loader parsePlain castW "d" false).2.2.2⟩

/-- C9 (counterexample): the claim asserts a non-decodable byte stream
yields `DecodingError`. In the code, `load_directory` wraps every failed
file read — including undecodable bytes — as a `ParseError` with a
`Failed to read ...` message; `DecodingError` is not produced. -/
theorem c9_counterexample :
    load_directory parsePlain castW "d"
        (some (.dir [("bad.yaml", .file Option.none)])) false
      = .error (.ParseError 0 0 "Failed to read d/bad.yaml") := rfl

/-- C9 (amended): a missing or non-directory path yields `FileNotFound`;
but a non-decodable byte stream read during directory loading yields
`ParseError` (with a `Failed to read ...` message), not `DecodingError`;
and the `io::Error` conversion maps only the not-found kind to
`FileNotFound`, every other IO failure (including undecodable data) to
`ParseError`. -/
theorem c9_error_kinds
    (parse : String → Except YAMLError Value) (cast : Int → F64)
    (directory : String) (recursive : Bool) :
    load_directory parse cast directory Option.none recursive
      = .error (.FileNotFound directory) ∧
    (∀ content, load_directory parse cast directory (some (.file content)) recursive
      = .error (.FileNotFound directory)) ∧
    (∀ name, isYamlFile name = true →
      load_directory parse cast directory
          (some (.dir [(name, .file Option.none)])) recursive
        = .error (.ParseError 0 0
            ("Failed to read " ++ renderPath [directory, name]))) ∧
    (∀ text, yamlErrorOfIo .notFound text = .FileNotFound "unknown") ∧
    (∀ kind text, kind ≠ .notFound →
      yamlErrorOfIo kind text = .ParseError 0 0 ("IO error: " ++ text)) := by
  refine ⟨rfl, fun _ => rfl, ?_, fun _ => rfl, ?_⟩
  · intro name h
    simp [load_directory, collect_yaml_files, collectEntry, h,
      loadDirParseFilter, loadDirItem]
  · intro kind text h
    simp [yamlErrorOfIo, h]

/-- C9 (witness): the amended theorem applied concretely: a missing path, a
directory holding one undecodable `.yaml` file, and the two IO-error
conversions. -/
theorem c9_witness :
    load_directory parsePlain castW "d" Option.none false
      = .error (.FileNotFound "d") ∧
    load_directory parsePlain castW "d"
        (some (.dir [("bad.yaml", .file Option.none)])) false
      = .error (.ParseError 0 0 ("Failed to read " ++ renderPath ["d", "bad.yaml"])) ∧
    yamlErrorOfIo .notFound "m" = .FileNotFound "unknown" ∧
    yamlErrorOfIo .invalidData "bad utf8" = .ParseError 0 0 "IO error: bad utf8" :=
  ⟨(c9_error_kinds parsePlain castW "d" false).1,
    (c9_error_kinds parsePlain castW "d" false).2.2.1 "bad.yaml" (by rfl),
    (c9_error_kinds parsePlain castW "d" false).2.2.2.1 "m",
    (c9_error_kinds parsePlain castW "d" false).2.2.2.2 .invalidData "bad utf8"
      (by decide)⟩

/-- C10: the batch loaders apply only the parsed-tree deep scan and never
the raw-text quick pre-scan: a document whose raw text trips the quick scan
but whose parsed tree is tag-free is rejected by the single-document safe
load (with the quick scan's error), while the batch safe load and the safe
directory load both accept it. -/
theorem c10_batch_skips_quick_scan
    (parse : String → Except YAMLError Value) (cast : Int → F64)
    (s : String) (v : Value) (e : YAMLError)
    (hp : parse s = .ok v) (ht : containsTagged v = false)
    (hq : quick_safety_check s = .error e) :
    parse_safe parse cast s = .error e ∧
    (∃ l, safe_load_many parse cast [s] = .ok l) ∧
    (∀ directory name, isYamlFile name = true →
      ∃ l, load_directory parse cast directory
        (some (.dir [(name, .file (some s))])) false = .ok l) := by
  have hc : check_safety v = .ok () := check_safety_ok_of_tagFree v ht
  obtain ⟨o, ho⟩ := yaml_ok_of_tagFree cast v ht
  refine ⟨by simp [parse_safe, hq], ?_, ?_⟩
  · exact ⟨[o], by simp [safe_load_many, batchParseFilter, hp, hc, batchConvert, ho]⟩
  · intro directory name hy
    refine ⟨[(renderPath [directory, name], o)], ?_⟩
    simp [load_directory, collect_yaml_files, collectEntry, hy,
      loadDirParseFilter, loadDirItem, hp, hc, loadDirConvert, ho]

/-- C10 (witness): the theorem applied to the concrete document
`a: see !!python/object`: the single-document safe load rejects it with the
quick scan's `UnsafeTag`, while the batch and directory safe loads accept
it. -/
theorem c10_witness :
    parse_safe parseScalarFragment castW sScalarFragment
      = .error (.UnsafeTag "!!python/object") ∧
    (∃ l, safe_load_many parseScalarFragment castW [sScalarFragment] = .ok l) ∧
    (∀ directory name, isYamlFile name = true →
      ∃ l, load_directory parseScalarFragment castW directory
        (some (.dir [(name, .file (some sScalarFragment))])) false = .ok l) :=
  c10_batch_skips_quick_scan parseScalarFragment castW sScalarFragment
    vScalarFragment (.UnsafeTag "!!python/object") rfl (by decide) (by rfl)

end RustyYaml
